import Mathlib

/-
Verification development for the marketing-meme-generator repository
(single source file `app.py`).

Shallow embedding conventions.

Python objects carrying optional attributes are modelled with a two-level
`Option`: for an attribute `x.f`,
  * `none`          models "the attribute is missing"  (`hasattr x f` is false;
                    a direct access `x.f` raises `AttributeError`);
  * `some none`     models "the attribute is present with value `None`"
                    (`hasattr` is true, the value is falsy);
  * `some (some v)` models "the attribute is present with value `v`".
Python truthiness of strings / bytes / lists is emptiness.

Byte strings are `List Nat`.  Exceptions are `Except Unit` (the payload of
the exception is irrelevant to every claim).  Writing a file is modelled by
appending a `(filename, data)` pair to a write log; nothing in the source
ever deletes a file.
-/

set_option autoImplicit false
set_option maxRecDepth 40000

namespace MemeGen

/-- A Python optional attribute: missing, present-but-None, or a value. -/
abbrev Attr (α : Type) := Option (Option α)

/-- Byte strings (`bytes`) as lists of byte values. -/
abbrev Bytes := List Nat

/-- `inline_data` of a part: binary payload plus mime type (both optional). -/
structure InlineData where
  data : Attr Bytes
  mime_type : Attr String
  deriving DecidableEq, Repr

/-- One response part: optional text and optional inline image payload. -/
structure Part where
  text : Attr String
  inline_data : Attr InlineData
  deriving DecidableEq, Repr

/-- `content` of a candidate: an optional list of parts. -/
structure Content where
  parts : Attr (List Part)
  deriving DecidableEq, Repr

/-- One candidate of a response. -/
structure Candidate where
  content : Attr Content
  deriving DecidableEq, Repr

/-- A full (non-streaming) response: the nested `candidates` shape or the
flat `parts` shape. -/
structure Response where
  candidates : Attr (List Candidate)
  parts : Attr (List Part)
  deriving DecidableEq, Repr

/-- One streamed chunk, exposing only its `candidates` attribute
(the streaming loop never touches anything else of the chunk). -/
structure Chunk where
  candidates : Attr (List Candidate)
  deriving DecidableEq, Repr

/-- The guard `hasattr(x, f) and x.f` for an object-valued attribute:
returns the object when the attribute is present and not `None`. -/
def attrObj {α : Type} : Attr α → Option α
  | some (some v) => some v
  | _ => none

/-- The guard `hasattr(x, f) and x.f` for a string attribute:
present, not `None`, and non-empty. -/
def attrStr : Attr String → Option String
  | some (some s) => if s = "" then none else some s
  | _ => none

/-- The guard `hasattr(x, f) and x.f` for a bytes attribute:
present, not `None`, and non-empty. -/
def attrBytes : Attr Bytes → Option Bytes
  | some (some d) => if d = [] then none else some d
  | _ => none

/-- The guard `hasattr(x, f) and x.f` for a list attribute:
present, not `None`, and non-empty. -/
def attrList {α : Type} : Attr (List α) → Option (List α)
  | some (some (a :: l)) => some (a :: l)
  | _ => none

/-- Modelled from the Python standard library: `mimetypes.guess_extension`
restricted to image mime types.  On CPython at least 3.13 the jpeg answer is
`".jpg"`; older interpreters answer `".jpe"`, which is likewise a registered
jpeg extension — the development fixes the `".jpg"` answer. -/
def mimetypes_guess_extension (m : String) : Option String :=
  if m = "image/png" then some ".png"
  else if m = "image/jpeg" then some ".jpg"
  else if m = "image/gif" then some ".gif"
  else if m = "image/webp" then some ".webp"
  else if m = "image/bmp" then some ".bmp"
  else none

/-- `getattr(part.inline_data, 'mime_type', 'image/png')`: the default fires
only when the attribute is missing; a present `None` value is returned as is. -/
def getattr_mime : Attr String → Option String
  | none => some "image/png"
  | some v => v

/-- `mimetypes.guess_extension(mime_type) or '.png'`.  Passing `None` to
`guess_extension` raises (`type.lower()` on `None`). -/
def guess_extension_or_png : Option String → Except Unit String
  | none => .error ()
  | some m => .ok ((mimetypes_guess_extension m).getD ".png")

/-- The image test of the streaming loop body, lines 242-245 of `app.py`:
`part.inline_data and part.inline_data.data` with *direct* attribute access
(a missing attribute raises), followed by mime lookup and extension
derivation.  Returns the extension and the data when an image is persisted,
`none` when the part carries no (non-empty) image payload. -/
def part_image (p : Part) : Except Unit (Option (String × Bytes)) :=
  match p.inline_data with
  | none => .error ()
  | some none => .ok none
  | some (some blob) =>
    match blob.data with
    | none => .error ()
    | some none => .ok none
    | some (some d) =>
      if d = [] then .ok none
      else (guess_extension_or_png (getattr_mime blob.mime_type)).map (fun e => some (e, d))

/-- The image test of the basic extractor, lines 137-141 of `app.py`:
`hasattr(part, 'inline_data') and part.inline_data` and then
`hasattr(part.inline_data, 'data') and part.inline_data.data` (fully guarded,
so only the mime handling can raise). -/
def basic_part_image (p : Part) : Except Unit (Option (String × Bytes)) :=
  match attrObj p.inline_data with
  | none => .ok none
  | some blob =>
    match attrBytes blob.data with
    | none => .ok none
    | some d =>
      (guess_extension_or_png (getattr_mime blob.mime_type)).map (fun e => some (e, d))

/-- Filename of the basic (non-streaming) naming policy:
`f"{prefix}_{timestamp}_{i}{ext}"`. -/
def basic_name (pfx ts : String) (i : Nat) (ext : String) : String :=
  pfx ++ "_" ++ ts ++ "_" ++ toString i ++ ext

/-- Filename of the streaming naming policy: `f"{save_prefix}_{file_index}{ext}"`. -/
def stream_name (pfx : String) (k : Nat) (ext : String) : String :=
  pfx ++ "_" ++ toString k ++ ext

/-- The part loop of `extract_and_save_images` (`for i, part in
enumerate(...)`), started at enumerate index `i`; returns the write log
`(filename, data)` of the saved images, in order. -/
def basic_parts_go (pfx ts : String) (i : Nat) : List Part → Except Unit (List (String × Bytes))
  | [] => .ok []
  | p :: ps => do
    let x ← basic_part_image p
    let rest ← basic_parts_go pfx ts (i + 1) ps
    match x with
    | none => .ok rest
    | some (e, d) => .ok ((basic_name pfx ts i e, d) :: rest)

/-- The candidate loop of `extract_and_save_images`, lines 132-144: each
candidate is guarded by `hasattr(candidate, 'content') and candidate.content`
and `hasattr(candidate.content, 'parts')`; the subsequent
`enumerate(candidate.content.parts)` raises a `TypeError` when `parts` is
present but `None` (no truthiness check exists for `parts`). -/
def basic_candidates_go (pfx ts : String) : List Candidate → Except Unit (List (String × Bytes))
  | [] => .ok []
  | c :: cs => do
    let here ←
      match attrObj c.content with
      | none => .ok []
      | some ct =>
        match ct.parts with
        | none => .ok []
        | some none => .error ()
        | some (some ps) => basic_parts_go pfx ts 0 ps
    let rest ← basic_candidates_go pfx ts cs
    .ok (here ++ rest)

/-- `extract_and_save_images(response, prefix)`, lines 124-158 of `app.py`.
`ts` is the `datetime.now().strftime(...)` timestamp.  Returns the list of
saved filenames together with the write log, or an exception. -/
def extract_and_save_images (response : Option Response) (pfx ts : String) :
    Except Unit (List String × List (String × Bytes)) :=
  match response with
  | none => .ok ([], [])
  | some r =>
    match attrList r.candidates with
    | some cands =>
      (basic_candidates_go pfx ts cands).map (fun ws => (ws.map Prod.fst, ws))
    | none =>
      match r.parts with
      | none => .ok ([], [])
      | some none => .error ()
      | some (some ps) =>
        (basic_parts_go pfx ts 0 ps).map (fun ws => (ws.map Prod.fst, ws))

/-- Observable events of the streaming loop: a surfaced text, or a persisted
image file. -/
inductive Event where
  | text (s : String)
  | image (filename : String) (d : Bytes)
  deriving DecidableEq, Repr

/-- State threaded through `generate_image_streaming`: the `saved_files`
accumulator, the on-disk write log, the emitted events, and `file_index`. -/
structure StState where
  files : List String
  writes : List (String × Bytes)
  events : List Event
  idx : Nat
  deriving DecidableEq, Repr

/-- The initial state (`saved_files = []`, `file_index = 0`). -/
def st0 : StState := ⟨[], [], [], 0⟩

/-- Text handling of the streaming loop body, lines 238-239:
`hasattr(part, 'text') and part.text` surfaces the text (log only). -/
def log_text (st : StState) (p : Part) : StState :=
  match attrStr p.text with
  | some t => { st with events := st.events ++ [Event.text t] }
  | none => st

/-- Persisting one image in the streaming loop, lines 243-248: the filename
is built from the running `file_index`, the file is written, the path is
appended to `saved_files`, and `file_index` is incremented. -/
def push_image (pfx : String) (st : StState) (e : String) (d : Bytes) : StState :=
  { files := st.files ++ [stream_name pfx st.idx e]
    writes := st.writes ++ [(stream_name pfx st.idx e, d)]
    events := st.events ++ [Event.image (stream_name pfx st.idx e) d]
    idx := st.idx + 1 }

/-- One iteration of the part loop of `generate_image_streaming`,
lines 236-256: text first, then the image test; a saved image appends to
`saved_files`, writes the file and increments `file_index`.  The boolean is
true when the body raised (the raise happens after the text was surfaced and
before any file of this part was written). -/
def stream_part (pfx : String) (st : StState) (p : Part) : StState × Bool :=
  let st1 := log_text st p
  match part_image p with
  | .error _ => (st1, true)
  | .ok none => (st1, false)
  | .ok (some (e, d)) => (push_image pfx st1 e d, false)

/-- The part loop over one chunk's parts; stops at the first raise. -/
def stream_parts (pfx : String) (st : StState) : List Part → StState × Bool
  | [] => (st, false)
  | p :: ps =>
    match stream_part pfx st p with
    | (st', true) => (st', true)
    | (st', false) => stream_parts pfx st' ps

/-- How one chunk is dispatched: skipped (`continue`), aborted by a raise,
or processed with its parts. -/
inductive ChunkView where
  | abort
  | skip
  | parts (ps : List Part)
  deriving DecidableEq, Repr

/-- The chunk guard of lines 231-234:
`chunk.candidates is None or chunk.candidates[0].content is None or
chunk.candidates[0].content.parts is None: continue`.  A present-but-empty
candidates list makes `chunk.candidates[0]` raise `IndexError`; a missing
attribute under direct access raises `AttributeError`. -/
def chunk_view (c : Chunk) : ChunkView :=
  match c.candidates with
  | none => .abort
  | some none => .skip
  | some (some []) => .abort
  | some (some (cand :: _)) =>
    match cand.content with
    | none => .abort
    | some none => .skip
    | some (some ct) =>
      match ct.parts with
      | none => .abort
      | some none => .skip
      | some (some ps) => .parts ps

/-- Processing of one chunk inside the streaming loop. -/
def stream_chunk (pfx : String) (st : StState) (c : Chunk) : StState × Bool :=
  match chunk_view c with
  | .abort => (st, true)
  | .skip => (st, false)
  | .parts ps => stream_parts pfx st ps

/-- The chunk loop; a raise anywhere is caught by the enclosing
`try`/`except`, which ends the loop with the state reached so far. -/
def stream_chunks (pfx : String) (st : StState) : List Chunk → StState × Bool
  | [] => (st, false)
  | c :: cs =>
    match stream_chunk pfx st c with
    | (st', true) => (st', true)
    | (st', false) => stream_chunks pfx st' cs

/-- The chunks actually delivered by the service: all of `cs`, or — when the
underlying call raises while fetching chunk `j` — only the first `j`. -/
def delivered (cs : List Chunk) : Option Nat → List Chunk
  | none => cs
  | some j => cs.take j

/-- `generate_image_streaming(prompt, save_prefix)`, lines 204-263 of
`app.py`.  `failAt = some j` models the underlying streaming call raising
after `j` chunks were delivered.  Both the normal exit and the `except`
branch return the `saved_files` accumulator; the returned state also carries
the write log and the event log. -/
def generate_image_streaming (pfx : String) (cs : List Chunk) (failAt : Option Nat) : StState :=
  (stream_chunks pfx st0 (delivered cs failAt)).1

/-- The 8 column names the tab-2 block passes to `pd.read_csv`. -/
def names8 : List String :=
  ["meme_template", "prompt", "company_background", "marketing_message",
   "call_to_action", "target_audience", "platform", "theme"]

/-- Splitting a character list at a separator, keeping empty segments
(the semantics of Python splitting; implemented by structural recursion so
that concrete instances evaluate inside the kernel). -/
def split_chars (sep : Char) : List Char → List (List Char)
  | [] => [[]]
  | c :: cs =>
    if c = sep then [] :: split_chars sep cs
    else
      match split_chars sep cs with
      | [] => [[c]]
      | l :: ls => (c :: l) :: ls

/-- String splitting at a separator character. -/
def split_str (sep : Char) (s : String) : List String :=
  (split_chars sep s.data).map (fun l => ⟨l⟩)

/-- Modelled from Python `str.strip()`: drop leading and trailing
whitespace. -/
def py_strip (s : String) : String :=
  ⟨((s.data.dropWhile Char.isWhitespace).reverse.dropWhile Char.isWhitespace).reverse⟩

/-- The comma-separated fields of one line. -/
def csv_fields (l : String) : List String := split_str ',' l

/-- The nonblank lines of a raw text (pandas skips blank lines). -/
def csv_lines (txt : String) : List String :=
  (split_str '\n' txt).filter (fun l => l ≠ "")

/-- Modelled from the pandas library: `pd.read_csv(StringIO(txt),
header=None, names=names)` restricted to unquoted fields.  Empty input is
`EmptyDataError`; a uniform table whose width equals `names.length` parses
to its rows.  (pandas's handling of width mismatches — NaN filling, index
promotion, tokenizer errors — is modelled as a single error; no theorem in
this file relies on that branch.) -/
def read_csv_model (txt : String) (names : List String) : Except String (List (List String)) :=
  let lines := csv_lines txt
  if lines.isEmpty then .error "EmptyDataError"
  else
    let rows := lines.map (fun l => csv_fields l)
    if rows.all (fun r => r.length = names.length) then .ok rows
    else .error "shape mismatch"

/-- The parse of the tab-2 block, lines 328-332 of `app.py`:
`csv_content = response.text.strip()` then `pd.read_csv(StringIO(csv_content),
header=None, names=[...8 names...])`. -/
def tab2_parse (raw : String) : Except String (List (List String)) :=
  read_csv_model (py_strip raw) names8

/-- The header line `df.to_csv(index=False)` writes first: the column names
joined by commas. -/
def csv_header_line : String := String.intercalate "," names8

/-- Modelled from the pandas library: the records
`df.to_csv(index=False)` writes, in order — `header=True` is the pandas
default, so the first record names the columns; then one record per row.
The on-disk file is these records, each terminated by a newline;
quoting is elided (no theorem uses fields containing commas or quotes). -/
def to_csv_noindex (names : List String) (rows : List (List String)) : List String :=
  String.intercalate "," names :: rows.map (fun r => String.intercalate "," r)

/-- The tab-2 generation block, lines 323-340 of `app.py`: on a successful
parse of the AI text, the DataFrame is kept and
`generated_marketing_data.csv` is written via `to_csv(index=False)`.
Returns the parsed rows together with the records of the written file. -/
def tab2_generate (raw : String) : Except String (List (List String) × List String) :=
  (tab2_parse raw).map (fun rows => (rows, to_csv_noindex names8 rows))

/-- One marketing row as selected in tab 3 (`marketing_data.iloc[idx]`). -/
structure MarketingRow where
  meme_template : String
  prompt : String
  company_background : String
  marketing_message : String
  call_to_action : String
  target_audience : String
  platform : String
  theme : String
  deriving DecidableEq, Repr

/-- One entry of the `generated_images` accumulator, lines 385-396. -/
structure ArtifactRec where
  row : Nat
  image_path : String
  meme_template : String
  prompt : String
  company_background : String
  marketing_message : String
  call_to_action : String
  target_audience : String
  platform : String
  theme : String
  deriving DecidableEq, Repr

/-- The dict appended for a selected row: index, the *first* saved file, and
the row's 8 metadata fields. -/
def mk_artifact (idx : Nat) (path : String) (r : MarketingRow) : ArtifactRec :=
  ⟨idx, path, r.meme_template, r.prompt, r.company_background, r.marketing_message,
   r.call_to_action, r.target_audience, r.platform, r.theme⟩

/-- The meme-generation loop of tab 3, lines 362-399 of `app.py`.
`streamFor idx` gives the chunk sequence (and failure point) the streaming
service delivers for row `idx`; each row calls `generate_image_streaming`
with prefix `f"meme_{idx}"` and appends an artifact exactly when the
returned file list is non-empty, recording its first element.
`marketing_data.iloc[idx]` raises on an out-of-range index (outside the
per-row `try`), which aborts the loop. -/
def meme_loop (marketing : List MarketingRow) (streamFor : Nat → List Chunk × Option Nat) :
    List Nat → Except Unit (List ArtifactRec)
  | [] => .ok []
  | idx :: rest =>
    match marketing[idx]? with
    | none => .error ()
    | some r =>
      let files := (generate_image_streaming ("meme_" ++ toString idx)
        (streamFor idx).1 (streamFor idx).2).files
      let here := match files with
        | [] => []
        | f :: _ => [mk_artifact idx f r]
      (meme_loop marketing streamFor rest).map (fun out => here ++ out)

/-- A spreadsheet cell value: the row index is an integer, the metadata
fields are strings. -/
inductive CellVal where
  | int (n : Nat)
  | str (s : String)
  deriving DecidableEq, Repr

/-- An image placed on the sheet: source path, the bytes loaded from disk at
export time, the fixed display size, and the anchor cell. -/
structure PlacedImage where
  path : String
  loaded : Bytes
  width : Nat
  height : Nat
  anchor : String
  deriving DecidableEq, Repr

/-- The assembled worksheet: title, written cells `(row, column, value)` and
placed images. -/
structure Sheet where
  title : String
  cells : List (Nat × Nat × CellVal)
  images : List PlacedImage
  deriving DecidableEq, Repr

/-- The header list of the export block, line 411 of `app.py`. -/
def headers10 : List String :=
  ["Row", "Meme Template", "Prompt", "Company Background", "Marketing Message",
   "Call to Action", "Target Audience", "Platform", "Theme", "Image"]

/-- The header loop `for col, header in enumerate(headers, 1):
ws.cell(row=1, column=col, value=header)`. -/
def header_cells : List (Nat × Nat × CellVal) :=
  headers10.enum.map (fun ce => (1, ce.1 + 1, CellVal.str ce.2))

/-- The nine metadata cells written for one artifact at worksheet row
`row_idx`, lines 417-425. -/
def artifact_cells (row_idx : Nat) (it : ArtifactRec) : List (Nat × Nat × CellVal) :=
  [(row_idx, 1, CellVal.int it.row),
   (row_idx, 2, CellVal.str it.meme_template),
   (row_idx, 3, CellVal.str it.prompt),
   (row_idx, 4, CellVal.str it.company_background),
   (row_idx, 5, CellVal.str it.marketing_message),
   (row_idx, 6, CellVal.str it.call_to_action),
   (row_idx, 7, CellVal.str it.target_audience),
   (row_idx, 8, CellVal.str it.platform),
   (row_idx, 9, CellVal.str it.theme)]

/-- `XLImage(item['image_path'])` loads the file from disk (raising when the
path is not on disk), then `img.width = 200; img.height = 200;
ws.add_image(img, f"J{row_idx}")`. -/
def xl_image (fs : List (String × Bytes)) (row_idx : Nat) (it : ArtifactRec) :
    Except Unit PlacedImage :=
  match fs.lookup it.image_path with
  | none => .error ()
  | some d => .ok ⟨it.image_path, d, 200, 200, "J" ++ toString row_idx⟩

/-- The data loop of the export block, `for row_idx, item in
enumerate(st.session_state.generated_images, 2)`. -/
def export_go (fs : List (String × Bytes)) (row_idx : Nat) :
    List ArtifactRec → Except Unit (List (Nat × Nat × CellVal) × List PlacedImage)
  | [] => .ok ([], [])
  | it :: rest => do
    let img ← xl_image fs row_idx it
    let (cls, ims) ← export_go fs (row_idx + 1) rest
    .ok (artifact_cells row_idx it ++ cls, img :: ims)

/-- The tab-3 export block, lines 405-434 of `app.py`: one sheet titled
"Memes", the header row, then one data row per accumulated artifact.
`fs` is the on-disk filesystem the images are loaded from. -/
def export_to_excel (fs : List (String × Bytes)) (items : List ArtifactRec) :
    Except Unit Sheet :=
  (export_go fs 2 items).map (fun ci => ⟨"Memes", header_cells ++ ci.1, ci.2⟩)

/-! ## Specification-side views of the streaming run -/

/-- The (extension, data) pairs of the images one chunk's parts persist,
in order, truncated at the first raise; the boolean records the raise. -/
def stream_images_parts : List Part → List (String × Bytes) × Bool
  | [] => ([], false)
  | p :: ps =>
    match part_image p with
    | .error _ => ([], true)
    | .ok none => stream_images_parts ps
    | .ok (some x) =>
      let r := stream_images_parts ps
      (x :: r.1, r.2)

/-- The (extension, data) pairs the whole delivered chunk sequence persists:
aborting chunks end the sequence, skipped chunks contribute nothing. -/
def stream_images_chunks : List Chunk → List (String × Bytes)
  | [] => []
  | c :: cs =>
    match chunk_view c with
    | .abort => []
    | .skip => stream_images_chunks cs
    | .parts ps =>
      let r := stream_images_parts ps
      if r.2 then r.1 else r.1 ++ stream_images_chunks cs

/-- Streaming filenames for an image sequence, numbered from `k`. -/
def stream_names (pfx : String) (k : Nat) : List (String × Bytes) → List String
  | [] => []
  | x :: xs => stream_name pfx k x.1 :: stream_names pfx (k + 1) xs

/-- Streaming write log for an image sequence, numbered from `k`. -/
def stream_writes (pfx : String) (k : Nat) : List (String × Bytes) → List (String × Bytes)
  | [] => []
  | x :: xs => (stream_name pfx k x.1, x.2) :: stream_writes pfx (k + 1) xs

/-- Per-part index, extension and data of the images the basic extractor
persists from a parts list, `enumerate` index starting at `i`; the mime
handling may raise. -/
def basic_images_enum (i : Nat) : List Part → Except Unit (List (Nat × String × Bytes))
  | [] => .ok []
  | p :: ps => do
    let x ← basic_part_image p
    let rest ← basic_images_enum (i + 1) ps
    match x with
    | none => .ok rest
    | some (e, d) => .ok ((i, e, d) :: rest)

/-- A response in the `candidates → content → parts` shape holding exactly
the given parts. -/
def respOfParts (ps : List Part) : Response :=
  ⟨some (some [⟨some (some ⟨some (some ps)⟩)⟩]), none⟩

/-! ## Basic permanent lemmas about the streaming fold -/

theorem log_text_files (st : StState) (p : Part) : (log_text st p).files = st.files := by
  unfold log_text; cases attrStr p.text <;> rfl

theorem log_text_writes (st : StState) (p : Part) : (log_text st p).writes = st.writes := by
  unfold log_text; cases attrStr p.text <;> rfl

theorem log_text_idx (st : StState) (p : Part) : (log_text st p).idx = st.idx := by
  unfold log_text; cases attrStr p.text <;> rfl

theorem push_image_files (pfx : String) (st : StState) (e : String) (d : Bytes) :
    (push_image pfx st e d).files = st.files ++ [stream_name pfx st.idx e] := rfl

theorem push_image_writes (pfx : String) (st : StState) (e : String) (d : Bytes) :
    (push_image pfx st e d).writes = st.writes ++ [(stream_name pfx st.idx e, d)] := rfl

theorem push_image_idx (pfx : String) (st : StState) (e : String) (d : Bytes) :
    (push_image pfx st e d).idx = st.idx + 1 := rfl

theorem stream_names_append (pfx : String) (k : Nat) (l₁ l₂ : List (String × Bytes)) :
    stream_names pfx k (l₁ ++ l₂)
      = stream_names pfx k l₁ ++ stream_names pfx (k + l₁.length) l₂ := by
  induction l₁ generalizing k with
  | nil => rfl
  | cons x xs ih =>
    have h1 : stream_names pfx k ((x :: xs) ++ l₂)
        = stream_name pfx k x.1 :: stream_names pfx (k + 1) (xs ++ l₂) := rfl
    rw [h1, ih (k + 1)]
    have h2 : k + (x :: xs).length = k + 1 + xs.length := by
      simp [List.length_cons]; omega
    rw [h2]
    rfl

theorem stream_writes_append (pfx : String) (k : Nat) (l₁ l₂ : List (String × Bytes)) :
    stream_writes pfx k (l₁ ++ l₂)
      = stream_writes pfx k l₁ ++ stream_writes pfx (k + l₁.length) l₂ := by
  induction l₁ generalizing k with
  | nil => rfl
  | cons x xs ih =>
    have h1 : stream_writes pfx k ((x :: xs) ++ l₂)
        = (stream_name pfx k x.1, x.2) :: stream_writes pfx (k + 1) (xs ++ l₂) := rfl
    rw [h1, ih (k + 1)]
    have h2 : k + (x :: xs).length = k + 1 + xs.length := by
      simp [List.length_cons]; omega
    rw [h2]
    rfl

/-- Closed form of the part loop: files, writes, the final index and the
raise flag are all determined by the spec-level image sequence. -/
theorem stream_parts_spec (pfx : String) : ∀ (ps : List Part) (st : StState),
    (stream_parts pfx st ps).1.files
        = st.files ++ stream_names pfx st.idx (stream_images_parts ps).1
      ∧ (stream_parts pfx st ps).1.writes
        = st.writes ++ stream_writes pfx st.idx (stream_images_parts ps).1
      ∧ (stream_parts pfx st ps).1.idx = st.idx + (stream_images_parts ps).1.length
      ∧ (stream_parts pfx st ps).2 = (stream_images_parts ps).2 := by
  intro ps
  induction ps with
  | nil => intro st; simp [stream_parts, stream_images_parts, stream_names, stream_writes]
  | cons p ps ih =>
    intro st
    rcases h : part_image p with he | x
    · simp [stream_parts, stream_part, h, stream_images_parts, stream_names, stream_writes,
        log_text_files, log_text_writes, log_text_idx]
    · rcases x with _ | ⟨e, d⟩
      · have hst : stream_part pfx st p = (log_text st p, false) := by
          simp [stream_part, h]
        simpa [stream_parts, hst, stream_images_parts, h,
          log_text_files, log_text_writes, log_text_idx] using ih (log_text st p)
      · have hst : stream_part pfx st p = (push_image pfx (log_text st p) e d, false) := by
          simp [stream_part, h]
        obtain ⟨ihf, ihw, ihi, ihb⟩ := ih (push_image pfx (log_text st p) e d)
        simp only [push_image_files, push_image_writes, push_image_idx,
          log_text_files, log_text_writes, log_text_idx] at ihf ihw ihi
        simp [stream_parts, hst, stream_images_parts, h, ihf, ihw, ihi, ihb,
          stream_names, stream_writes]
        omega

/-- Closed form of the chunk loop: files, writes and the final index are
determined by the spec-level image sequence of the delivered chunks. -/
theorem stream_chunks_spec (pfx : String) : ∀ (cs : List Chunk) (st : StState),
    (stream_chunks pfx st cs).1.files
        = st.files ++ stream_names pfx st.idx (stream_images_chunks cs)
      ∧ (stream_chunks pfx st cs).1.writes
        = st.writes ++ stream_writes pfx st.idx (stream_images_chunks cs)
      ∧ (stream_chunks pfx st cs).1.idx = st.idx + (stream_images_chunks cs).length := by
  intro cs
  induction cs with
  | nil => intro st; simp [stream_chunks, stream_images_chunks, stream_names, stream_writes]
  | cons c cs ih =>
    intro st
    rcases hv : chunk_view c with _ | _ | ps
    · simp [stream_chunks, stream_chunk, hv, stream_images_chunks, stream_names, stream_writes]
    · simpa [stream_chunks, stream_chunk, hv, stream_images_chunks] using ih st
    · obtain ⟨hf, hw, hi, hb⟩ := stream_parts_spec pfx ps st
      rcases hsp : stream_parts pfx st ps with ⟨st', b⟩
      rw [hsp] at hf hw hi hb
      simp only at hf hw hi hb
      cases hflag : (stream_images_parts ps).2 with
      | false =>
        rw [hflag] at hb
        obtain ⟨ihf, ihw, ihi⟩ := ih st'
        have hnames := stream_names_append pfx st.idx
          (stream_images_parts ps).1 (stream_images_chunks cs)
        have hwrites := stream_writes_append pfx st.idx
          (stream_images_parts ps).1 (stream_images_chunks cs)
        simp [stream_chunks, stream_chunk, hv, hsp, hb, stream_images_chunks, hflag,
          ihf, ihw, ihi, hf, hw, hi, hnames, hwrites, List.append_assoc, List.length_append]
        omega
      | true =>
        rw [hflag] at hb
        simp [stream_chunks, stream_chunk, hv, hsp, hb, stream_images_chunks, hflag, hf, hw, hi]

/-- The basic part loop saves exactly the images listed by
`basic_images_enum`, each named with its `enumerate` index. -/
theorem basic_parts_go_spec (pfx ts : String) : ∀ (ps : List Part) (i : Nat),
    basic_parts_go pfx ts i ps
      = (basic_images_enum i ps).map
          (List.map (fun x => (basic_name pfx ts x.1 x.2.1, x.2.2))) := by
  intro ps
  induction ps with
  | nil => intro i; rfl
  | cons p ps ih =>
    intro i
    rcases h : basic_part_image p with he | x
    · simp [basic_parts_go, basic_images_enum, h, Except.map, Except.bind, bind]
    · rcases henum : basic_images_enum (i + 1) ps with he2 | rest
      · rcases x with _ | ⟨e, d⟩ <;>
          simp [basic_parts_go, basic_images_enum, h, henum, ih (i + 1),
            Except.map, Except.bind, bind]
      · rcases x with _ | ⟨e, d⟩ <;>
          simp [basic_parts_go, basic_images_enum, h, henum, ih (i + 1),
            Except.map, Except.bind, bind]

/-- Projecting the filename out of the streaming write log gives the
streaming name sequence. -/
theorem stream_writes_map_fst (pfx : String) : ∀ (l : List (String × Bytes)) (k : Nat),
    (stream_writes pfx k l).map Prod.fst = stream_names pfx k l := by
  intro l
  induction l with
  | nil => intro k; rfl
  | cons x xs ih => intro k; simp [stream_writes, stream_names, ih (k + 1)]

/-- Element-wise reading of the streaming name sequence. -/
theorem stream_names_get? (pfx : String) : ∀ (l : List (String × Bytes)) (k j : Nat),
    (stream_names pfx k l).get? j = (l.get? j).map (fun x => stream_name pfx (k + j) x.1) := by
  intro l
  induction l with
  | nil => intro k j; cases j <;> rfl
  | cons x xs ih =>
    intro k j
    cases j with
    | zero => rfl
    | succ j =>
      have h := ih (k + 1) j
      have harith : k + 1 + j = k + (j + 1) := by omega
      rw [harith] at h
      simpa [stream_names] using h

/-- A chunk the streaming guard skips with `continue`. -/
def chunk_skipped (c : Chunk) : Bool :=
  match chunk_view c with
  | .skip => true
  | _ => false

/-- A chunk contributing no parts: skipped, aborting, or with an empty
parts list. -/
def chunk_no_parts (c : Chunk) : Bool :=
  match chunk_view c with
  | .parts ps => ps.isEmpty
  | _ => true

/-- A stream whose chunks contribute no parts leaves the state untouched. -/
theorem stream_chunks_no_parts (pfx : String) : ∀ (cs : List Chunk) (st : StState),
    (∀ c ∈ cs, chunk_no_parts c = true) → (stream_chunks pfx st cs).1 = st := by
  intro cs
  induction cs with
  | nil => intro st _; rfl
  | cons c cs ih =>
    intro st h
    have hc : chunk_no_parts c = true := h c (by simp)
    have hcs : ∀ x ∈ cs, chunk_no_parts x = true := fun x hx => h x (by simp [hx])
    rcases hv : chunk_view c with _ | _ | ps
    · simp [stream_chunks, stream_chunk, hv]
    · simp [stream_chunks, stream_chunk, hv]
      exact ih st hcs
    · have : ps.isEmpty = true := by simpa [chunk_no_parts, hv] using hc
      have hps : ps = [] := by simpa [List.isEmpty_iff] using this
      subst hps
      simp [stream_chunks, stream_chunk, hv, stream_parts]
      exact ih st hcs

/-- A candidate of the basic extractor that yields no parts *without
raising*: its content is missing, `None`, or has no `parts` attribute. -/
def candidate_no_parts (c : Candidate) : Bool :=
  match attrObj c.content with
  | none => true
  | some ct => ct.parts.isNone

/-- A response value in which the candidates/parts structure is absent,
reading "absent" as a missing attribute for the unguarded `parts` field:
no response, candidates missing/None/empty with no flat `parts` attribute,
or candidates whose contents are missing/None or lack a `parts` attribute. -/
def no_parts_structure : Option Response → Bool
  | none => true
  | some r =>
    match attrList r.candidates with
    | some cands => cands.all candidate_no_parts
    | none => r.parts.isNone

/-- The candidate loop returns no writes over candidates without parts. -/
theorem basic_candidates_go_no_parts (pfx ts : String) : ∀ (cands : List Candidate),
    cands.all candidate_no_parts = true → basic_candidates_go pfx ts cands = .ok [] := by
  intro cands
  induction cands with
  | nil => intro _; rfl
  | cons c cs ih =>
    intro h
    rw [List.all_cons, Bool.and_eq_true] at h
    have hrest := ih h.2
    have hc := h.1
    rcases hco : attrObj c.content with _ | ct
    · simp [basic_candidates_go, hco, hrest, Except.bind, bind]
    · have : ct.parts.isNone = true := by simpa [candidate_no_parts, hco] using hc
      have hpn : ct.parts = none := by simpa [Option.isNone_iff_eq_none] using this
      simp [basic_candidates_go, hco, hpn, hrest, Except.bind, bind]

/-- Shape invariant of a successful `read_csv`: every parsed row has as many
fields as there are column names. -/
theorem read_csv_model_ok_shape : ∀ (txt : String) (names : List String) (rows : List (List String)),
    read_csv_model txt names = .ok rows →
    rows = (csv_lines txt).map (fun l => csv_fields l)
      ∧ ∀ r ∈ rows, r.length = names.length := by
  intro txt names rows h
  simp only [read_csv_model] at h
  split at h
  · exact absurd h (by simp)
  · split at h
    · rename_i hall
      refine ⟨by injection h with h1; exact h1.symm, ?_⟩
      intro r hr
      injection h with h1
      subst h1
      rw [List.all_eq_true] at hall
      simpa using hall r hr
    · exact absurd h (by simp)

/-! ## Concrete inputs used by counterexamples and witnesses -/

/-- A response whose single candidate has content with a `parts` attribute
that is present but `None`. -/
def parts_none_response : Response :=
  ⟨some (some [⟨some (some ⟨some none⟩)⟩]), none⟩

/-- A response with a candidates attribute that is `None` and no flat
`parts` attribute. -/
def no_candidates_response : Response := ⟨some none, none⟩

/-- An image-only part: text `None`, png payload. -/
def png_part : Part :=
  ⟨some none, some (some ⟨some (some [137, 80, 78, 71]), some (some "image/png")⟩)⟩

/-- A part with a jpeg payload of the given bytes. -/
def jpeg_part (d : Bytes) : Part :=
  ⟨some none, some (some ⟨some (some d), some (some "image/jpeg")⟩)⟩

/-- A part whose inline data has no `mime_type` attribute at all. -/
def no_mime_part (d : Bytes) : Part :=
  ⟨some none, some (some ⟨some (some d), none⟩)⟩

/-- A part whose mime type has no standard extension mapping. -/
def odd_mime_part (d : Bytes) (m : String) : Part :=
  ⟨some none, some (some ⟨some (some d), some (some m)⟩)⟩

/-- A part carrying both text and a png payload. -/
def both_part (t : String) (d : Bytes) (mt : Attr String) : Part :=
  ⟨some (some t), some (some ⟨some (some d), mt⟩)⟩

/-- A well-formed chunk holding exactly the given parts. -/
def chunk_of (ps : List Part) : Chunk :=
  ⟨some (some [⟨some (some ⟨some (some ps)⟩)⟩])⟩

/-- A chunk whose candidates list is present but empty. -/
def empty_cand_chunk : Chunk := ⟨some (some [])⟩

/-- A chunk whose candidates attribute is present and `None`. -/
def none_cand_chunk : Chunk := ⟨some none⟩

/-- Nine well-formed comma-separated rows of eight fields each. -/
def nine_rows_text : String :=
  "a1,b1,c1,d1,e1,f1,g1,h1\na2,b2,c2,d2,e2,f2,g2,h2\na3,b3,c3,d3,e3,f3,g3,h3\na4,b4,c4,d4,e4,f4,g4,h4\na5,b5,c5,d5,e5,f5,g5,h5\na6,b6,c6,d6,e6,f6,g6,h6\na7,b7,c7,d7,e7,f7,g7,h7\na8,b8,c8,d8,e8,f8,g8,h8\na9,b9,c9,d9,e9,f9,g9,h9"

/-- The rows `nine_rows_text` parses to. -/
def nine_rows_parsed : List (List String) :=
  (csv_lines nine_rows_text).map (fun l => csv_fields l)

/-- Ten well-formed comma-separated rows of eight fields each. -/
def ten_rows_text : String :=
  nine_rows_text ++ "\nt1,t2,t3,t4,t5,t6,t7,t8"

/-- The rows `ten_rows_text` parses to. -/
def ten_rows_parsed : List (List String) :=
  (csv_lines ten_rows_text).map (fun l => csv_fields l)

/-! ## Claim C1 -/

/-- C1 (counterexample): the claim promises an empty result and no error for
*every* response with the candidates/parts structure absent, explicitly
including "content without parts"; but a candidate whose content has a
`parts` attribute that is present and `None` passes the `hasattr` guard and
then `enumerate(None)` raises a `TypeError`. -/
theorem extract_raises_on_parts_none :
    extract_and_save_images (some parts_none_response) "image" "20240101_000000"
      = .error () := rfl

/-- C1 (amended): for every response value in which the candidates/parts
structure is absent at any nesting level — reading "without parts" as a
missing `parts` attribute, since a present-but-`None` `parts` raises —
`extract_and_save_images` returns an empty list of saved files, writes
nothing, and does not raise. -/
theorem extract_absent_structure_ok (r : Option Response) (pfx ts : String)
    (h : no_parts_structure r = true) :
    extract_and_save_images r pfx ts = .ok ([], []) := by
  match r with
  | none => rfl
  | some resp =>
    rcases hc : attrList resp.candidates with _ | cands
    · have hpn : resp.parts = none := by
        have : resp.parts.isNone = true := by simpa [no_parts_structure, hc] using h
        simpa [Option.isNone_iff_eq_none] using this
      simp [extract_and_save_images, hc, hpn]
    · have hall : cands.all candidate_no_parts = true := by
        simpa [no_parts_structure, hc] using h
      simp [extract_and_save_images, hc,
        basic_candidates_go_no_parts pfx ts cands hall, Except.map]

/-- C1 (witness): the amended theorem applied to a response whose candidates
attribute is `None` and which has no flat `parts` attribute. -/
theorem extract_absent_structure_ok_witness :
    no_parts_structure (some no_candidates_response) = true
      ∧ extract_and_save_images (some no_candidates_response) "image" "20240101_000000"
          = .ok ([], []) :=
  ⟨by decide,
   extract_absent_structure_ok (some no_candidates_response) "image" "20240101_000000"
     (by decide)⟩

/-! ## Claim C2 -/

/-- C2 (counterexample): nine well-formed rows of eight fields do not
trigger any malformed-data error — the parse succeeds and silently yields a
nine-row table. -/
theorem tab2_parse_nine_rows_ok :
    tab2_parse nine_rows_text = .ok nine_rows_parsed ∧ nine_rows_parsed.length = 9 := by
  constructor
  · rfl
  · rfl

/-- C2 (amended): the parse has no row-count validation: any raw text whose
nonblank lines each split into exactly 8 comma-separated fields parses
successfully, one parsed row per line — 9 rows (or any other count) are
silently accepted; only a field-count mismatch is surfaced as an error. -/
theorem tab2_parse_accepts_uniform_rows (txt : String)
    (htrim : py_strip txt = txt) (hne : csv_lines txt ≠ [])
    (hw : ∀ l ∈ csv_lines txt, (csv_fields l).length = 8) :
    tab2_parse txt = .ok ((csv_lines txt).map (fun l => csv_fields l))
      ∧ ((csv_lines txt).map (fun l => csv_fields l)).length = (csv_lines txt).length := by
  constructor
  · simp only [tab2_parse, read_csv_model, htrim]
    have h1 : (csv_lines txt).isEmpty = false := by
      simpa [List.isEmpty_iff] using hne
    rw [h1]
    have h2 : ((csv_lines txt).map (fun l => csv_fields l)).all
        (fun r => r.length = names8.length) = true := by
      rw [List.all_eq_true]
      intro r hr
      rw [List.mem_map] at hr
      obtain ⟨l, hl, rfl⟩ := hr
      simpa [names8] using hw l hl
    simp [h2]
  · exact List.length_map _ _

/-- C2 (witness): the amended theorem applied to the nine-row text. -/
theorem tab2_parse_accepts_uniform_rows_witness :
    py_strip nine_rows_text = nine_rows_text
      ∧ tab2_parse nine_rows_text
          = .ok ((csv_lines nine_rows_text).map (fun l => csv_fields l)) :=
  ⟨by decide,
   (tab2_parse_accepts_uniform_rows nine_rows_text (by decide) (by decide) (by decide)).1⟩

/-! ## Claim C9 -/

/-- C9 (counterexample): the CSV file written after a successful generation
is *not* the bare data rows — its records are a header line naming the 8
columns followed by the data rows, so the "no header row" claim fails at
this ten-row input. -/
theorem csv_file_has_header_row :
    tab2_generate ten_rows_text
        = .ok (ten_rows_parsed,
               csv_header_line :: ten_rows_parsed.map (fun r => String.intercalate "," r))
      ∧ csv_header_line :: ten_rows_parsed.map (fun r => String.intercalate "," r)
          ≠ ten_rows_parsed.map (fun r => String.intercalate "," r) := by
  constructor
  · rfl
  · decide

/-- C9 (amended): the CSV artifact `generated_marketing_data.csv` written
after a successful marketing-data generation contains exactly 8 columns and
one row per marketing idea, *preceded by a header row naming the columns*
(pandas `to_csv` writes the header by default; only the index is
suppressed). -/
theorem csv_file_header_and_shape (raw : String) (rows : List (List String))
    (file : List String) (h : tab2_generate raw = .ok (rows, file)) :
    file = csv_header_line :: rows.map (fun r => String.intercalate "," r)
      ∧ names8.length = 8
      ∧ (∀ r ∈ rows, r.length = 8)
      ∧ file.length = rows.length + 1 := by
  have hp : tab2_parse raw = .ok rows ∧ file = to_csv_noindex names8 rows := by
    rcases hpp : tab2_parse raw with e | rows0
    · simp [tab2_generate, hpp, Except.map] at h
    · simp only [tab2_generate, hpp, Except.map, Except.ok.injEq, Prod.mk.injEq] at h
      obtain ⟨h1, h2⟩ := h
      subst h1
      exact ⟨rfl, h2.symm⟩
  obtain ⟨hparse, hfile⟩ := hp
  have hshape := read_csv_model_ok_shape (py_strip raw) names8 rows hparse
  refine ⟨?_, rfl, ?_, ?_⟩
  · rw [hfile]; rfl
  · intro r hr
    simpa [names8] using hshape.2 r hr
  · rw [hfile]
    simp [to_csv_noindex, csv_header_line]

/-- C9 (witness): the amended theorem applied to the ten-row text. -/
theorem csv_file_header_and_shape_witness :
    tab2_generate ten_rows_text
        = .ok (ten_rows_parsed,
               csv_header_line :: ten_rows_parsed.map (fun r => String.intercalate "," r))
      ∧ (csv_header_line :: ten_rows_parsed.map (fun r => String.intercalate "," r)).length
          = ten_rows_parsed.length + 1 :=
  ⟨by rfl,
   by
    have := csv_file_header_and_shape ten_rows_text ten_rows_parsed
      (csv_header_line :: ten_rows_parsed.map (fun r => String.intercalate "," r)) (by rfl)
    exact this.2.2.2⟩

/-! ## Claim C7 -/

/-- C7 (counterexample): a chunk whose candidates list exists but is empty
is *not* skipped as a no-op: `chunk.candidates[0]` raises `IndexError`,
which the enclosing handler catches, ending the stream — so an image chunk
following it is never processed, while alone it would be. -/
theorem stream_empty_candidates_aborts :
    (generate_image_streaming "stream" [empty_cand_chunk, chunk_of [png_part]] none).files = []
      ∧ (generate_image_streaming "stream" [chunk_of [png_part]] none).files
          = ["stream_0.png"] := ⟨rfl, rfl⟩

/-- C7 (amended): a streamed chunk whose nested content-parts path is
`None` at some level (candidates `None`, first candidate's content `None`,
or its parts `None`) is skipped as a no-op; a chunk whose candidates list
exists but is empty instead raises an internal `IndexError` that the
enclosing handler catches, ending processing with the accumulator collected
so far.  Consequently a stream containing no chunks with parts yields an
empty accumulator and writes no files. -/
theorem stream_chunk_skip_and_empty :
    (∀ (pfx : String) (st : StState) (c : Chunk),
        chunk_skipped c = true → stream_chunk pfx st c = (st, false))
      ∧ (∀ (pfx : String) (cs : List Chunk) (failAt : Option Nat),
          (∀ c ∈ cs, chunk_no_parts c = true) →
          (generate_image_streaming pfx cs failAt).files = []
            ∧ (generate_image_streaming pfx cs failAt).writes = []) := by
  constructor
  · intro pfx st c hc
    rcases hv : chunk_view c with _ | _ | ps
    · simp [chunk_skipped, hv] at hc
    · simp [stream_chunk, hv]
    · simp [chunk_skipped, hv] at hc
  · intro pfx cs failAt h
    have hall : ∀ c ∈ delivered cs failAt, chunk_no_parts c = true := by
      intro c hc
      rcases failAt with _ | j
      · exact h c hc
      · exact h c (List.take_subset j cs hc)
    have := stream_chunks_no_parts pfx (delivered cs failAt) st0 hall
    unfold generate_image_streaming
    rw [this]
    exact ⟨rfl, rfl⟩

/-- C7 (witness): the amended theorem applied to a skipped `None`-candidates
chunk and to a stream of such chunks. -/
theorem stream_chunk_skip_and_empty_witness :
    chunk_skipped none_cand_chunk = true
      ∧ stream_chunk "stream" st0 none_cand_chunk = (st0, false)
      ∧ (generate_image_streaming "stream" [none_cand_chunk, empty_cand_chunk] none).files
          = [] :=
  ⟨by decide,
   stream_chunk_skip_and_empty.1 "stream" st0 none_cand_chunk (by decide),
   (stream_chunk_skip_and_empty.2 "stream" [none_cand_chunk, empty_cand_chunk] none
      (by decide)).1⟩

/-! ## Claim C3 -/

/-- C3: when the underlying streaming service call raises after delivering
`j` chunks, `generate_image_streaming` behaves exactly as a normally
terminating stream of those `j` chunks — the exception is not propagated —
and the returned accumulator lists exactly the filenames whose writes were
performed: every file persisted before the failure is returned and remains
in the write log. -/
theorem streaming_failure_returns_accumulator (pfx : String) (cs : List Chunk) (j : Nat) :
    generate_image_streaming pfx cs (some j) = generate_image_streaming pfx (cs.take j) none
      ∧ (generate_image_streaming pfx cs (some j)).files
          = (generate_image_streaming pfx cs (some j)).writes.map Prod.fst := by
  constructor
  · rfl
  · obtain ⟨hf, hw, _⟩ := stream_chunks_spec pfx (delivered cs (some j)) st0
    unfold generate_image_streaming
    rw [hf, hw]
    simp [st0, stream_writes_map_fst]

/-! ## Claim C4 -/

/-- C4: naming policies of the two modes.  Streaming: the file at position
`j` of the accumulator is named `{prefix}_{j}{ext}` — the index counts
extracted images only (`stream_images_chunks` lists exactly the persisted
images, skipping text-only parts and empty chunks).  Basic: when the basic
extractor succeeds on a single-candidate response, each persisted image is
named `{prefix}_{timestamp}_{i}{ext}` where `i` is that part's position in
the parts sequence (`basic_images_enum` advances `i` on every part, text-only
parts included). -/
theorem naming_policies :
    (∀ (pfx : String) (cs : List Chunk) (failAt : Option Nat) (j : Nat),
        (generate_image_streaming pfx cs failAt).files.get? j
          = ((stream_images_chunks (delivered cs failAt)).get? j).map
              (fun x => stream_name pfx j x.1))
      ∧ (∀ (pfx ts : String) (ps : List Part) (imgs : List (Nat × String × Bytes)),
          basic_images_enum 0 ps = .ok imgs →
          extract_and_save_images (some (respOfParts ps)) pfx ts
            = .ok (imgs.map (fun x => basic_name pfx ts x.1 x.2.1),
                   imgs.map (fun x => (basic_name pfx ts x.1 x.2.1, x.2.2)))) := by
  constructor
  · intro pfx cs failAt j
    obtain ⟨hf, _, _⟩ := stream_chunks_spec pfx (delivered cs failAt) st0
    unfold generate_image_streaming
    rw [hf]
    simp only [st0, List.nil_append]
    rw [stream_names_get? pfx _ 0 j]
    simp
  · intro pfx ts ps imgs himgs
    have hgo := basic_parts_go_spec pfx ts ps 0
    rw [himgs] at hgo
    simp only [Except.map] at hgo
    simp [extract_and_save_images, respOfParts, attrList, basic_candidates_go,
      attrObj, hgo, Except.map, Except.bind, bind, List.map_map]

/-- C4 (witness): the two halves applied to concrete inputs: a stream with
one image chunk, and a single-candidate response whose image part sits at
parts position 1, behind a text-only part. -/
theorem naming_policies_witness :
    (generate_image_streaming "stream" [chunk_of [png_part]] none).files.get? 0
        = some (stream_name "stream" 0 ".png")
      ∧ basic_images_enum 0 [both_part "hi" [] (some (some "image/png")), jpeg_part [1, 2, 3]]
          = .ok [(1, ".jpg", [1, 2, 3])]
      ∧ extract_and_save_images
          (some (respOfParts [both_part "hi" [] (some (some "image/png")), jpeg_part [1, 2, 3]]))
          "basic" "TS"
          = .ok ([basic_name "basic" "TS" 1 ".jpg"],
                 [(basic_name "basic" "TS" 1 ".jpg", [1, 2, 3])]) :=
  ⟨by
    have := naming_policies.1 "stream" [chunk_of [png_part]] none 0
    rw [this]
    rfl,
   rfl,
   naming_policies.2 "basic" "TS"
     [both_part "hi" [] (some (some "image/png")), jpeg_part [1, 2, 3]]
     [(1, ".jpg", [1, 2, 3])] rfl⟩

/-! ## Claim C5 -/

/-- C5 (counterexample): the two results are not guaranteed for *every*
part carrying both non-empty text and non-empty inline image data.  When
the payload's `mime_type` is present but `None`, the text is surfaced
first, then `getattr` returns the `None` value (its default fires only for
a missing attribute) and `mimetypes.guess_extension(None)` raises — the
body aborts with only the Text result emitted, and no InlineImage result,
no write and no accumulator entry are produced. -/
theorem text_part_without_image_on_none_mime :
    stream_part "s" st0 (both_part "hello" [7] (some none))
      = ({ files := [], writes := [], events := [Event.text "hello"], idx := 0 }, true) := rfl

/-- C5 (amended): a part carrying both a non-empty text and a non-empty
inline image payload whose mime handling succeeds (mime attribute missing,
or present with a string value) yields both results, text first: processing
emits the text event followed by the image event (and persists the image),
in that order.  When the mime type is present but `None`, only the Text
result is emitted before the raise. -/
theorem text_and_image_part_in_order (pfx : String) (st : StState) (t : String)
    (d : Bytes) (mt : Attr String) (e : String)
    (ht : t ≠ "") (hd : d ≠ []) (he : guess_extension_or_png (getattr_mime mt) = .ok e) :
    stream_part pfx st (both_part t d mt)
      = ({ files := st.files ++ [stream_name pfx st.idx e]
           writes := st.writes ++ [(stream_name pfx st.idx e, d)]
           events := st.events ++ [Event.text t, Event.image (stream_name pfx st.idx e) d]
           idx := st.idx + 1 }, false) := by
  have hpi : part_image (both_part t d mt) = .ok (some (e, d)) := by
    simp [part_image, both_part, hd, he, Except.map]
  have hlog : log_text st (both_part t d mt)
      = { st with events := st.events ++ [Event.text t] } := by
    simp [log_text, both_part, attrStr, ht]
  simp [stream_part, hpi, hlog, push_image]

/-- C5 (witness): the theorem applied to the scenario part
(text "hello", png payload). -/
theorem text_and_image_part_in_order_witness :
    ("hello" ≠ "" ∧ ([7] : Bytes) ≠ []
        ∧ guess_extension_or_png (getattr_mime (some (some "image/png"))) = .ok ".png")
      ∧ stream_part "s" st0 (both_part "hello" [7] (some (some "image/png")))
          = ({ files := [stream_name "s" 0 ".png"]
               writes := [(stream_name "s" 0 ".png", [7])]
               events := [Event.text "hello", Event.image (stream_name "s" 0 ".png") [7]]
               idx := 1 }, false) :=
  ⟨⟨by decide, by decide, rfl⟩,
   by
    have := text_and_image_part_in_order "s" st0 "hello" [7] (some (some "image/png")) ".png"
      (by decide) (by decide) rfl
    simpa [st0] using this⟩

/-! ## Claim C8 -/

/-- C8: mime handling of persisted image parts.  When the payload's
`mime_type` attribute is missing, `getattr` defaults it to `"image/png"`
(hence extension `".png"`); when the mime type has no standard extension
mapping, the extension falls back to `".png"`; and a `"image/jpeg"` part is
persisted with the standard jpeg extension under the naming policy of each
mode (streaming `{prefix}_{0}.jpg` for the sole image, basic
`{prefix}_{timestamp}_{0}.jpg` for the sole part). -/
theorem mime_default_and_jpeg_extension :
    getattr_mime none = some "image/png"
      ∧ guess_extension_or_png (some "image/png") = .ok ".png"
      ∧ (∀ m : String, mimetypes_guess_extension m = none →
          guess_extension_or_png (some m) = .ok ".png")
      ∧ (∀ (pfx : String) (d : Bytes), d ≠ [] →
          (generate_image_streaming pfx [chunk_of [no_mime_part d]] none).files
            = [stream_name pfx 0 ".png"])
      ∧ (∀ (pfx : String) (d : Bytes), d ≠ [] →
          (generate_image_streaming pfx [chunk_of [jpeg_part d]] none).files
            = [stream_name pfx 0 ".jpg"])
      ∧ (∀ (pfx ts : String) (d : Bytes), d ≠ [] →
          extract_and_save_images (some (respOfParts [jpeg_part d])) pfx ts
            = .ok ([basic_name pfx ts 0 ".jpg"], [(basic_name pfx ts 0 ".jpg", d)])) := by
  refine ⟨rfl, rfl, ?_, ?_, ?_, ?_⟩
  · intro m hm
    simp [guess_extension_or_png, hm]
  · intro pfx d hd
    have hpi : part_image (no_mime_part d) = .ok (some (".png", d)) := by
      simp [part_image, no_mime_part, hd, getattr_mime, guess_extension_or_png,
        mimetypes_guess_extension, Except.map]
    rw [no_mime_part] at hpi
    simp [generate_image_streaming, delivered, stream_chunks, stream_chunk, chunk_of,
      chunk_view, stream_parts, stream_part, hpi, log_text, no_mime_part, attrStr,
      push_image, st0]
  · intro pfx d hd
    have hpi : part_image (jpeg_part d) = .ok (some (".jpg", d)) := by
      simp [part_image, jpeg_part, hd, getattr_mime, guess_extension_or_png,
        mimetypes_guess_extension, Except.map]
    rw [jpeg_part] at hpi
    simp [generate_image_streaming, delivered, stream_chunks, stream_chunk, chunk_of,
      chunk_view, stream_parts, stream_part, hpi, log_text, jpeg_part, attrStr,
      push_image, st0]
  · intro pfx ts d hd
    have hb : basic_part_image (jpeg_part d) = .ok (some (".jpg", d)) := by
      simp [basic_part_image, jpeg_part, attrObj, attrBytes, hd, getattr_mime,
        guess_extension_or_png, mimetypes_guess_extension, Except.map]
    simp [extract_and_save_images, respOfParts, attrList, basic_candidates_go,
      attrObj, basic_parts_go, hb, Except.map, Except.bind, bind]

/-- C8 (witness): the theorem applied to an unknown mime type and to a jpeg
part with payload `[9]`. -/
theorem mime_default_and_jpeg_extension_witness :
    mimetypes_guess_extension "application/x-unknown" = none
      ∧ guess_extension_or_png (some "application/x-unknown") = .ok ".png"
      ∧ (generate_image_streaming "img" [chunk_of [jpeg_part [9]]] none).files
          = [stream_name "img" 0 ".jpg"]
      ∧ extract_and_save_images (some (respOfParts [jpeg_part [9]])) "img" "TS"
          = .ok ([basic_name "img" "TS" 0 ".jpg"], [(basic_name "img" "TS" 0 ".jpg", [9])]) :=
  ⟨rfl,
   mime_default_and_jpeg_extension.2.2.1 "application/x-unknown" rfl,
   mime_default_and_jpeg_extension.2.2.2.2.1 "img" [9] (by decide),
   mime_default_and_jpeg_extension.2.2.2.2.2 "img" "TS" [9] (by decide)⟩

/-! ## Claim C6 -/

/-- Spec-level cell layout of the export: the nine metadata cells of each
artifact, at consecutive worksheet rows from `row_idx`, in input order. -/
def export_cells_spec (row_idx : Nat) : List ArtifactRec → List (Nat × Nat × CellVal)
  | [] => []
  | it :: rest => artifact_cells row_idx it ++ export_cells_spec (row_idx + 1) rest

/-- Spec-level image layout of the export: one 200×200 image per artifact,
loaded from its persisted path, anchored at column J of its row. -/
def export_images_spec (fs : List (String × Bytes)) (row_idx : Nat) :
    List ArtifactRec → List PlacedImage
  | [] => []
  | it :: rest =>
    ⟨it.image_path, (fs.lookup it.image_path).getD [], 200, 200, "J" ++ toString row_idx⟩
      :: export_images_spec fs (row_idx + 1) rest

/-- A successful data loop realises the spec-level layout, and every placed
image was loaded from the filesystem entry of its path. -/
theorem export_go_spec (fs : List (String × Bytes)) : ∀ (items : List ArtifactRec)
    (row_idx : Nat) (cls : List (Nat × Nat × CellVal)) (ims : List PlacedImage),
    export_go fs row_idx items = .ok (cls, ims) →
    cls = export_cells_spec row_idx items
      ∧ ims = export_images_spec fs row_idx items
      ∧ ∀ img ∈ ims, fs.lookup img.path = some img.loaded := by
  intro items
  induction items with
  | nil =>
    intro row_idx cls ims h
    simp only [export_go, Except.ok.injEq, Prod.mk.injEq] at h
    obtain ⟨h1, h2⟩ := h
    subst h1; subst h2
    simp [export_cells_spec, export_images_spec]
  | cons it rest ih =>
    intro row_idx cls ims h
    rcases hl : fs.lookup it.image_path with _ | d
    · simp [export_go, xl_image, hl, Except.bind, bind] at h
    · rcases hrest : export_go fs (row_idx + 1) rest with e | ⟨cls', ims'⟩
      · simp [export_go, xl_image, hl, hrest, Except.bind, bind] at h
      · obtain ⟨ih1, ih2, ih3⟩ := ih (row_idx + 1) cls' ims' hrest
        simp only [export_go, xl_image, hl, hrest, Except.bind, bind,
          Except.ok.injEq, Prod.mk.injEq] at h
        obtain ⟨h1, h2⟩ := h
        subst h1; subst h2
        refine ⟨by rw [ih1]; rfl, by rw [ih2]; simp [export_images_spec, hl], ?_⟩
        intro img him
        rcases List.mem_cons.mp him with heq | hmem
        · subst heq; exact hl
        · exact ih3 img hmem

/-- One placed image per artifact. -/
theorem export_images_spec_length (fs : List (String × Bytes)) :
    ∀ (items : List ArtifactRec) (row_idx : Nat),
    (export_images_spec fs row_idx items).length = items.length := by
  intro items
  induction items with
  | nil => intro row_idx; rfl
  | cons it rest ih => intro row_idx; simp [export_images_spec, ih (row_idx + 1)]

/-- Every placed image has the fixed 200×200 display size. -/
theorem export_images_spec_dims (fs : List (String × Bytes)) :
    ∀ (items : List ArtifactRec) (row_idx : Nat) (img : PlacedImage),
    img ∈ export_images_spec fs row_idx items → img.width = 200 ∧ img.height = 200 := by
  intro items
  induction items with
  | nil => intro row_idx img him; simp [export_images_spec] at him
  | cons it rest ih =>
    intro row_idx img him
    rcases List.mem_cons.mp him with heq | hmem
    · subst heq; exact ⟨rfl, rfl⟩
    · exact ih (row_idx + 1) img hmem

/-- C6: a successful Excel export of `k` artifacts produces the sheet
"Memes" whose cells are exactly one header row naming the 10 columns
followed by the `k` artifacts' data cells at rows 2.. in input order, and
whose images are one per artifact in input order, each loaded from that
artifact's persisted file, embedded at 200×200, and anchored at column J of
the artifact's row. -/
theorem export_to_excel_layout (fs : List (String × Bytes)) (items : List ArtifactRec)
    (sheet : Sheet) (h : export_to_excel fs items = .ok sheet) :
    sheet.title = "Memes"
      ∧ headers10.length = 10
      ∧ sheet.cells = header_cells ++ export_cells_spec 2 items
      ∧ sheet.images = export_images_spec fs 2 items
      ∧ sheet.images.length = items.length
      ∧ ∀ img ∈ sheet.images,
          fs.lookup img.path = some img.loaded ∧ img.width = 200 ∧ img.height = 200 := by
  rcases hgo : export_go fs 2 items with e | ⟨cls, ims⟩
  · simp [export_to_excel, hgo, Except.map] at h
  · obtain ⟨h1, h2, h3⟩ := export_go_spec fs items 2 cls ims hgo
    simp only [export_to_excel, hgo, Except.map] at h
    injection h with h4
    subst h4
    refine ⟨rfl, rfl, by rw [h1], by rw [h2], ?_, ?_⟩
    · show ims.length = items.length
      rw [h2]
      exact export_images_spec_length fs items 2
    · intro img him
      refine ⟨h3 img him, ?_⟩
      rw [h2] at him
      exact export_images_spec_dims fs items 2 img him

/-- A concrete artifact used by witnesses. -/
def demo_artifact : ArtifactRec :=
  ⟨0, "meme_0_0.png", "Drake", "p", "bg", "msg", "cta", "aud", "X", "fun"⟩

/-- C6 (witness): the theorem applied to one artifact whose file is on
disk. -/
theorem export_to_excel_layout_witness :
    export_to_excel [("meme_0_0.png", [1, 2])] [demo_artifact]
        = .ok ⟨"Memes",
               header_cells ++ export_cells_spec 2 [demo_artifact],
               export_images_spec [("meme_0_0.png", [1, 2])] 2 [demo_artifact]⟩
      ∧ (export_images_spec [("meme_0_0.png", [1, 2])] 2 [demo_artifact]).length = 1 :=
  ⟨by rfl,
   by
    have := export_to_excel_layout [("meme_0_0.png", [1, 2])] [demo_artifact]
      ⟨"Memes",
       header_cells ++ export_cells_spec 2 [demo_artifact],
       export_images_spec [("meme_0_0.png", [1, 2])] 2 [demo_artifact]⟩ (by rfl)
    simpa using this.2.2.2.2.1⟩

/-! ## Claim C10 -/

/-- C10: when the meme-generation loop completes, the recorded artifact list
is exactly: for each selected row index, an artifact if and only if the
streaming call for that row returned a non-empty file list, carrying that
row's index, metadata, and the *first* element of the file list as its image
path — files beyond the first are never recorded. -/
theorem meme_loop_records_first_file (marketing : List MarketingRow)
    (streamFor : Nat → List Chunk × Option Nat) (sel : List Nat)
    (out : List ArtifactRec) (h : meme_loop marketing streamFor sel = .ok out) :
    out = sel.filterMap (fun idx =>
      marketing[idx]?.bind (fun r =>
        match (generate_image_streaming ("meme_" ++ toString idx)
            (streamFor idx).1 (streamFor idx).2).files with
        | [] => none
        | f :: _ => some (mk_artifact idx f r))) := by
  induction sel generalizing out with
  | nil =>
    simp only [meme_loop, Except.ok.injEq] at h
    subst h
    rfl
  | cons idx rest ih =>
    rcases hm : marketing[idx]? with _ | r
    · simp [meme_loop, hm] at h
    · rcases hrest : meme_loop marketing streamFor rest with e | out'
      · simp [meme_loop, hm, hrest, Except.map] at h
      · have hout' := ih out' hrest
        rcases hfiles : (generate_image_streaming ("meme_" ++ toString idx)
            (streamFor idx).1 (streamFor idx).2).files with _ | ⟨f, fs2⟩
        · simp only [meme_loop, hm, hrest, hfiles, Except.map, Except.ok.injEq] at h
          subst h
          simp [List.filterMap_cons, hm, hfiles, hout']
        · simp only [meme_loop, hm, hrest, hfiles, Except.map, Except.ok.injEq] at h
          subst h
          simp [List.filterMap_cons, hm, hfiles, hout']

/-- A one-row marketing table used by witnesses. -/
def demo_row : MarketingRow := ⟨"Drake", "p", "bg", "msg", "cta", "aud", "X", "fun"⟩

/-- C10 (witness): the theorem applied to one selected row whose stream
yields two images — only the first file is recorded. -/
theorem meme_loop_records_first_file_witness :
    meme_loop [demo_row] (fun _ => ([chunk_of [png_part, png_part]], none)) [0]
        = .ok [mk_artifact 0 (stream_name "meme_0" 0 ".png") demo_row]
      ∧ (generate_image_streaming "meme_0" [chunk_of [png_part, png_part]] none).files
          = [stream_name "meme_0" 0 ".png", stream_name "meme_0" 1 ".png"]
      ∧ [mk_artifact 0 (stream_name "meme_0" 0 ".png") demo_row]
          = [0].filterMap (fun idx =>
              (([demo_row] : List MarketingRow)[idx]?).bind (fun r =>
                match (generate_image_streaming ("meme_" ++ toString idx)
                    [chunk_of [png_part, png_part]] none).files with
                | [] => none
                | f :: _ => some (mk_artifact idx f r))) :=
  ⟨rfl, rfl,
   meme_loop_records_first_file [demo_row]
     (fun _ => ([chunk_of [png_part, png_part]], none)) [0]
     [mk_artifact 0 (stream_name "meme_0" 0 ".png") demo_row] rfl⟩

end MemeGen
